import Mathlib

/-!
Verification of the 1-D persistence engine of StripePy
(`src/stripepy/utils/persistence1d.py`) and of the CLI argument
validators of `src/stripepy/cli/setup.py`.

Signals are modelled as `List ℤ`: the engine only ever compares and
subtracts signal values, so an ordered additive value domain is all the
embedding needs, and integer values keep every concrete run kernel-computable.  Persistence values are `WithTop ℤ`, with `⊤`
standing for `np.inf`.  Extremum indices in the returned pairs are
`Option Nat`, with `none` standing for the union-find sentinel `NOSET`
(reachable only on an empty signal).
-/

/-- `val data i` is `data[i]`; every access performed by the code is
in range, the default `0` is never relevant there. -/
def val (data : List ℤ) (i : Nat) : ℤ :=
  data.getD i 0

namespace UnionFind1D

/-- Modelled from the spec: the repository imports `UnionFind` from
`stripepy.utils.unionfind`, a file that is not part of the sources at
hand.  Spec §4.1 describes it: a universe of indices, each initially
unset (sentinel `NOSET`, here `none`); `find` returns the current
representative of an element's set or the sentinel.  The state is kept
as the collapsed map sending every element directly to its root. -/
def find (uf : Nat → Option Nat) (i : Nat) : Option Nat :=
  uf i

/-- Modelled from the spec: `make_set i` creates a new singleton set
containing `i` (spec §4.1). -/
def make_set (uf : Nat → Option Nat) (i : Nat) : Nat → Option Nat :=
  fun j => if j = i then some i else uf j

/-- Modelled from the spec: `extend_set_by_id root i` adds the
previously-unset element `i` into the set identified by `root`, which
remains the representative (spec §4.1). -/
def extend_set_by_id (uf : Nat → Option Nat) (root i : Nat) : Nat → Option Nat :=
  fun j => if j = i then some root else uf j

/-- Modelled from the spec: `union a b` merges the sets rooted at `a`
and `b`.  Spec §4.1 fixes the choice of survivor through the caller's
merge policy: the persistence engine always designates the dominant
extremum's root — passed second by `run_persistence` — as the survivor,
and spec §4.2 step 3 requires the final representative of index 0's
component to be the global extremum, so the second argument survives. -/
def union (uf : Nat → Option Nat) (a b : Nat) : Nat → Option Nat :=
  fun j => if uf j = some a then some b else uf j

end UnionFind1D

/-- The index order produced by `np.argsort(data, kind="stable")`:
ascending by value, ties broken by original index ascending.  This
lexicographic order is total and antisymmetric, so the stable argsort
result is the unique permutation of `0..N-1` sorted by it. -/
def argOrder (data : List ℤ) (i j : Nat) : Prop :=
  val data i < val data j ∨ (val data i = val data j ∧ i ≤ j)

instance (data : List ℤ) : DecidableRel (argOrder data) := fun i j => by
  unfold argOrder; exact inferInstance

instance (data : List ℤ) : IsTotal Nat (argOrder data) where
  total i j := by
    rcases lt_trichotomy (val data i) (val data j) with h | h | h
    · exact Or.inl (Or.inl h)
    · rcases Nat.le_total i j with hij | hij
      · exact Or.inl (Or.inr ⟨h, hij⟩)
      · exact Or.inr (Or.inr ⟨h.symm, hij⟩)
    · exact Or.inr (Or.inl h)

instance (data : List ℤ) : IsTrans Nat (argOrder data) where
  trans i j k hij hjk := by
    rcases hij with h1 | ⟨h1, h1'⟩ <;> rcases hjk with h2 | ⟨h2, h2'⟩
    · exact Or.inl (h1.trans h2)
    · exact Or.inl (h2 ▸ h1)
    · exact Or.inl (h1 ▸ h2)
    · exact Or.inr ⟨h1.trans h2, h1'.trans h2'⟩

instance (data : List ℤ) : IsAntisymm Nat (argOrder data) where
  antisymm i j hij hji := by
    rcases hij with h1 | ⟨h1, h1'⟩ <;> rcases hji with h2 | ⟨h2, h2'⟩
    · exact absurd (h1.trans h2) (lt_irrefl _)
    · exact absurd h1 (h2 ▸ lt_irrefl _)
    · exact absurd h2 (h1 ▸ lt_irrefl _)
    · exact Nat.le_antisymm h1' h2'

/-- `np.argsort(data, kind="stable")` over indices `0..N-1`. -/
def argsort (data : List ℤ) : List Nat :=
  List.insertionSort (argOrder data) (List.range data.length)

/-- The mutable state of the watershed loop of `run_persistence`:
the union-find structure and the list of recorded pairs. -/
structure WatershedState where
  uf : Nat → Option Nat
  pairs : List (Option Nat × WithTop ℤ)

/-- The list
`[uf.Find(n) for n in [left_idx, right_idx] if uf.Find(n) != NOSET]`
built by `run_persistence` for the clamped neighbourhood of `idx`. -/
def neighborComponents (num_elements : Nat) (uf : Nat → Option Nat) (idx : Nat) : List Nat :=
  List.filterMap uf [max (idx - 1) 0, min (idx + 1) (num_elements - 1)]

/-- One iteration of the watershed loop of `run_persistence`
(persistence1d.py lines 50-95).  `np.argmin`/`np.argmax` return the
first position attaining the extremum, hence the tie-breaks in the
selection of the surviving root.  The inner list comprehension
`[comp for comp in neighbor_components if comp != idx_lowest_minimum][0]`
is rendered as an if-expression agreeing with it whenever the two
neighbour roots are distinct (when they coincide the Python code would
raise; that situation cannot arise on a connected 1-D domain). -/
def watershedStep (data : List ℤ) (level_sets : String) (s : WatershedState) (idx : Nat) :
    WatershedState :=
  match neighborComponents data.length s.uf idx with
  | [] => { s with uf := UnionFind1D.make_set s.uf idx }
  | [r] => { s with uf := UnionFind1D.extend_set_by_id s.uf r idx }
  | r1 :: r2 :: _ =>
    if level_sets = "lower" then
      let idx_lowest_minimum := if val data r1 ≤ val data r2 then r1 else r2
      let idx_highest_minimum := if r1 ≠ idx_lowest_minimum then r1 else r2
      let persistence : WithTop ℤ := ((val data idx - val data idx_highest_minimum : ℤ) : WithTop ℤ)
      { uf := UnionFind1D.union (UnionFind1D.extend_set_by_id s.uf idx_lowest_minimum idx)
          idx_highest_minimum idx_lowest_minimum,
        pairs := s.pairs ++ [(some idx_highest_minimum, persistence), (some idx, persistence)] }
    else if level_sets = "upper" then
      let idx_highest_maximum := if val data r2 ≤ val data r1 then r1 else r2
      let idx_lowest_maximum := if r1 ≠ idx_highest_maximum then r1 else r2
      let persistence : WithTop ℤ := ((val data idx_lowest_maximum - val data idx : ℤ) : WithTop ℤ)
      { uf := UnionFind1D.union (UnionFind1D.extend_set_by_id s.uf idx_highest_maximum idx)
          idx_lowest_maximum idx_highest_maximum,
        pairs := s.pairs ++ [(some idx, persistence), (some idx_lowest_maximum, persistence)] }
    else s

/-- `run_persistence(data, level_sets)` from persistence1d.py: stable
argsort (reversed for upper level sets), the watershed loop, then the
final unpaired global-extremum entry with persistence `np.inf`. -/
def run_persistence (data : List ℤ) (level_sets : String) : List (Option Nat × WithTop ℤ) :=
  let sorted_idx := if level_sets = "upper" then (argsort data).reverse else argsort data
  let final := sorted_idx.foldl (watershedStep data level_sets) ⟨fun _ => none, []⟩
  if level_sets = "lower" then final.pairs ++ [(UnionFind1D.find final.uf 0, ⊤)]
  else if level_sets = "upper" then final.pairs ++ [(UnionFind1D.find final.uf 0, ⊤)]
  else final.pairs

/-- `l[::2]` — the elements of `l` at even positions. -/
def everyOther {α : Type} : List α → List α
  | [] => []
  | [a] => [a]
  | a :: _ :: t => a :: everyOther t

/-- `DiversifyExtremumPointsAndPersistence` from persistence1d.py:
splits the pair list into even- and odd-position sublists and, for
upper level sets, moves the trailing entry to the maxima side.  (On an
empty input with `level_set="upper"` the Python code would raise on
`MinimumPointsAndPersistence[-1]`; here the move is simply skipped.) -/
def DiversifyExtremumPointsAndPersistence (l : List (Option Nat × WithTop ℤ))
    (level_set : String) :
    List (Option Nat × WithTop ℤ) × List (Option Nat × WithTop ℤ) :=
  let MinimumPointsAndPersistence := everyOther l
  let MaximumPointsAndPersistence := everyOther l.tail
  if level_set = "upper" then
    (MinimumPointsAndPersistence.dropLast,
      MaximumPointsAndPersistence ++ MinimumPointsAndPersistence.getLast?.toList)
  else
    (MinimumPointsAndPersistence, MaximumPointsAndPersistence)

/-- `FilterExtremumPointsByPersistence` from persistence1d.py:
retains the entries `t` with `t[1] > Threshold`. -/
def FilterExtremumPointsByPersistence (l : List (Option Nat × WithTop ℤ))
    (Threshold : WithTop ℤ) : List (Option Nat × WithTop ℤ) :=
  l.filter (fun t => decide (Threshold < t.2))

/-- `i` is a (weak) local minimum of the signal with respect to the
clamped neighbourhood used by `run_persistence`. -/
def IsMinPt (data : List ℤ) (i : Nat) : Prop :=
  val data i ≤ val data (max (i - 1) 0) ∧ val data i ≤ val data (min (i + 1) (data.length - 1))

/-- `i` is a (weak) local maximum of the signal with respect to the
clamped neighbourhood used by `run_persistence`. -/
def IsMaxPt (data : List ℤ) (i : Nat) : Prop :=
  val data (max (i - 1) 0) ≤ val data i ∧ val data (min (i + 1) (data.length - 1)) ≤ val data i

instance (data : List ℤ) (i : Nat) : Decidable (IsMinPt data i) := by
  unfold IsMinPt; exact inferInstance

instance (data : List ℤ) (i : Nat) : Decidable (IsMaxPt data i) := by
  unfold IsMaxPt; exact inferInstance

/-- Swap the elements at positions `2*i` and `2*i+1` for every `i`,
leaving a trailing unpaired element in place. -/
def swapPairs {α : Type} : List α → List α
  | a :: b :: t => b :: a :: swapPairs t
  | l => l

/-- Lists of even length alternating between elements satisfying `P`
(even positions) and elements satisfying `Q` (odd positions). -/
def Alt2 {α : Type} (P Q : α → Prop) : List α → Prop
  | [] => True
  | [_] => False
  | a :: b :: t => P a ∧ Q b ∧ Alt2 P Q t

/-- The `_probability` argparse type of `src/stripepy/cli/setup.py`:
accepts a number in `[0, 1]`, rejects anything else. -/
def probability_arg (arg : ℚ) : Except String ℚ :=
  if 0 ≤ arg ∧ arg ≤ 1 then Except.ok arg else Except.error ("Not a valid probability")

/-- The `_positive_int` argparse type of `src/stripepy/cli/setup.py`:
accepts strictly positive integers only. -/
def positive_int_arg (arg : Int) : Except String Int :=
  if 0 < arg then Except.ok arg else Except.error ("Not a positive int")

/-- The conversion applied by argparse to the `--max-width` option of
the `call` subcommand (setup.py lines 131-136): the option is declared
with `type=int`, so every integer — zero and negative integers
included — is accepted as-is and handed to the pipeline. -/
def max_width_arg (arg : Int) : Except String Int :=
  Except.ok arg

/-! ### Basic facts about the processing order -/

theorem val_neg_map (data : List ℤ) (j : Nat) :
    val (data.map (fun v => -v)) j = -(val data j) := by
  unfold val
  rw [List.getD_eq_getElem?_getD, List.getD_eq_getElem?_getD, List.getElem?_map]
  cases data[j]? <;> simp

theorem argsort_sorted (data : List ℤ) :
    List.Sorted (argOrder data) (argsort data) :=
  List.sorted_insertionSort _ _

theorem argsort_perm (data : List ℤ) :
    (argsort data).Perm (List.range data.length) :=
  List.perm_insertionSort _ _

theorem argsort_mem (data : List ℤ) (j : Nat) :
    j ∈ argsort data ↔ j < data.length := by
  rw [(argsort_perm data).mem_iff, List.mem_range]

theorem argsort_nodup (data : List ℤ) : (argsort data).Nodup :=
  ((argsort_perm data).nodup_iff).mpr (List.nodup_range _)

theorem argOrder_le {data : List ℤ} {i j : Nat} (h : argOrder data i j) :
    val data i ≤ val data j := by
  rcases h with h | ⟨h, _⟩
  · exact le_of_lt h
  · exact le_of_eq h

/-! ### Facts about the union-find operations -/

namespace UnionFind1D

theorem make_set_isSome (uf : Nat → Option Nat) (i j : Nat) :
    ((make_set uf i) j).isSome ↔ (j = i ∨ (uf j).isSome) := by
  unfold make_set
  by_cases hj : j = i <;> simp [hj]

theorem make_set_root_of (uf : Nat → Option Nat) (i : Nat)
    (hroot : ∀ j r, uf j = some r → uf r = some r) (hi : uf i = none) :
    ∀ j r, (make_set uf i) j = some r → (make_set uf i) r = some r := by
  intro j r hj
  unfold make_set at hj ⊢
  by_cases hji : j = i
  · simp [hji] at hj
    simp [hj.symm]
  · simp [hji] at hj
    have hr := hroot j r hj
    have hri : r ≠ i := by
      intro h
      rw [h, hi] at hr
      exact Option.noConfusion hr
    simp [hri, hr]

theorem make_set_root_sub (uf : Nat → Option Nat) (i : Nat) :
    ∀ r, (make_set uf i) r = some r → (uf r = some r ∨ r = i) := by
  intro r h
  unfold make_set at h
  by_cases hri : r = i
  · exact Or.inr hri
  · simp [hri] at h
    exact Or.inl h

theorem extend_isSome (uf : Nat → Option Nat) (a i j : Nat) :
    ((extend_set_by_id uf a i) j).isSome ↔ (j = i ∨ (uf j).isSome) := by
  unfold extend_set_by_id
  by_cases hj : j = i <;> simp [hj]

theorem extend_root_of (uf : Nat → Option Nat) (a i : Nat)
    (hroot : ∀ j r, uf j = some r → uf r = some r)
    (ha : uf a = some a) (hi : uf i = none) :
    ∀ j r, (extend_set_by_id uf a i) j = some r → (extend_set_by_id uf a i) r = some r := by
  intro j r hj
  have hai : a ≠ i := by
    intro h
    rw [h, hi] at ha
    exact Option.noConfusion ha
  unfold extend_set_by_id at hj ⊢
  by_cases hji : j = i
  · simp [hji] at hj
    simp [hj.symm, hai, ha]
  · simp [hji] at hj
    have hr := hroot j r hj
    have hri : r ≠ i := by
      intro h
      rw [h, hi] at hr
      exact Option.noConfusion hr
    simp [hri, hr]

theorem extend_root_sub (uf : Nat → Option Nat) (a i : Nat)
    (ha : uf a = some a) (hi : uf i = none) :
    ∀ r, (extend_set_by_id uf a i) r = some r → uf r = some r := by
  intro r h
  unfold extend_set_by_id at h
  by_cases hri : r = i
  · simp [hri] at h
    rw [← hri] at h
    rw [h, hri, hi] at ha
    exact Option.noConfusion ha
  · simp [hri] at h
    exact h

theorem union_apply (uf : Nat → Option Nat) (a b j : Nat) :
    union uf a b j = if uf j = some a then some b else uf j := rfl

theorem extend_apply (uf : Nat → Option Nat) (a i j : Nat) :
    extend_set_by_id uf a i j = if j = i then some a else uf j := rfl

theorem unionExtend_isSome (uf : Nat → Option Nat) (a b i j : Nat) :
    (((union (extend_set_by_id uf a i) b a)) j).isSome ↔ (j = i ∨ (uf j).isSome) := by
  rw [union_apply, extend_apply]
  by_cases hj : j = i
  · rw [if_pos hj, ite_self]
    simp [hj]
  · rw [if_neg hj]
    rcases huj : uf j with _ | r
    · rw [if_neg (by simp)]
      simp [hj]
    · by_cases hrb : r = b <;> simp [hrb, hj]

theorem unionExtend_root_of (uf : Nat → Option Nat) (a b i : Nat)
    (hroot : ∀ j r, uf j = some r → uf r = some r)
    (ha : uf a = some a) (hi : uf i = none) :
    ∀ j r, (union (extend_set_by_id uf a i) b a) j = some r →
      (union (extend_set_by_id uf a i) b a) r = some r := by
  have hai : a ≠ i := by
    intro h
    rw [h, hi] at ha
    exact Option.noConfusion ha
  have hua : (union (extend_set_by_id uf a i) b a) a = some a := by
    rw [union_apply, extend_apply, if_neg hai, ha]
    by_cases hab : a = b
    · rw [if_pos (by rw [hab]), hab]
    · rw [if_neg (by simpa using hab)]
  intro j r hj
  by_cases hji : j = i
  · have hja : (union (extend_set_by_id uf a i) b a) j = some a := by
      rw [union_apply, extend_apply, if_pos hji, ite_self]
    rw [hja] at hj
    cases hj
    exact hua
  · rw [union_apply, extend_apply, if_neg hji] at hj
    by_cases hjb : uf j = some b
    · rw [if_pos hjb] at hj
      cases hj
      exact hua
    · rw [if_neg hjb] at hj
      have hr := hroot j r hj
      have hrb : r ≠ b := by
        intro h
        rw [h] at hj
        exact hjb hj
      have hri : r ≠ i := by
        intro h
        rw [h, hi] at hr
        exact Option.noConfusion hr
      rw [union_apply, extend_apply, if_neg hri,
        if_neg (by rw [hr]; simpa using hrb)]
      exact hr

theorem unionExtend_root_sub (uf : Nat → Option Nat) (a b i : Nat)
    (ha : uf a = some a) (hi : uf i = none) :
    ∀ r, (union (extend_set_by_id uf a i) b a) r = some r → uf r = some r := by
  have hai : a ≠ i := by
    intro h
    rw [h, hi] at ha
    exact Option.noConfusion ha
  intro r h
  by_cases hri : r = i
  · exfalso
    have hra : (union (extend_set_by_id uf a i) b a) r = some a := by
      rw [union_apply, extend_apply, if_pos hri, ite_self]
    rw [hra] at h
    cases h
    exact hai hri
  · rw [union_apply, extend_apply, if_neg hri] at h
    by_cases hjb : uf r = some b
    · rw [if_pos hjb] at h
      cases h
      exact ha
    · rw [if_neg hjb] at h
      exact h

end UnionFind1D

/-! ### Facts about alternating lists and pair swapping -/

theorem alt2_even {α : Type} {P Q : α → Prop} :
    ∀ {l : List α}, Alt2 P Q l → Even l.length
  | [], _ => by simp
  | [_], h => absurd h (by simp [Alt2])
  | _ :: _ :: t, h => by
    rcases alt2_even (h.2.2 : Alt2 P Q t) with ⟨m, hm⟩
    exact ⟨m + 1, by simp only [List.length_cons]; omega⟩

theorem alt2_append {α : Type} {P Q : α → Prop} {a b : α} :
    ∀ {l : List α}, Alt2 P Q l → P a → Q b → Alt2 P Q (l ++ [a, b])
  | [], _, ha, hb => ⟨ha, hb, trivial⟩
  | [_], h, _, _ => absurd h (by simp [Alt2])
  | _ :: _ :: t, h, ha, hb => by
    refine ⟨h.1, h.2.1, ?_⟩
    exact alt2_append (h.2.2 : Alt2 P Q t) ha hb

theorem alt2_get {α : Type} {P Q : α → Prop} :
    ∀ {l : List α}, Alt2 P Q l → ∀ k (h : k < l.length),
      (k % 2 = 0 → P (l.get ⟨k, h⟩)) ∧ (k % 2 = 1 → Q (l.get ⟨k, h⟩))
  | [], _, k, h => absurd h (by simp)
  | [_], h, _, _ => absurd h (by simp [Alt2])
  | a :: b :: t, h, k, hk => by
    match k with
    | 0 => exact ⟨fun _ => h.1, fun hc => by omega⟩
    | 1 => exact ⟨fun hc => by omega, fun _ => h.2.1⟩
    | Nat.succ (Nat.succ m) =>
      have hm : m < t.length := by
        simp only [List.length_cons] at hk
        omega
      have hrec := alt2_get (h.2.2 : Alt2 P Q t) m hm
      constructor
      · intro he
        have : m % 2 = 0 := by omega
        simpa using hrec.1 this
      · intro ho
        have : m % 2 = 1 := by omega
        simpa using hrec.2 this

theorem alt2_mem {α : Type} {P Q : α → Prop} :
    ∀ {l : List α}, Alt2 P Q l → ∀ x ∈ l, P x ∨ Q x
  | [], _, x, hx => absurd hx (by simp)
  | [_], h, _, _ => absurd h (by simp [Alt2])
  | a :: b :: t, h, x, hx => by
    rcases List.mem_cons.mp hx with rfl | hx2
    · exact Or.inl h.1
    · rcases List.mem_cons.mp hx2 with rfl | hx3
      · exact Or.inr h.2.1
      · exact alt2_mem (h.2.2 : Alt2 P Q t) x hx3

theorem swapPairs_concat {α : Type} {x : α} :
    ∀ {l : List α}, Even l.length → swapPairs (l ++ [x]) = swapPairs l ++ [x]
  | [], _ => rfl
  | [_], h => absurd h (by simp)
  | a :: b :: t, h => by
    have ht : Even t.length := by
      rcases h with ⟨m, hm⟩
      simp only [List.length_cons] at hm
      exact ⟨m - 1, by omega⟩
    show b :: a :: swapPairs (t ++ [x]) = b :: a :: swapPairs t ++ [x]
    rw [swapPairs_concat ht]
    rfl

theorem swapPairs_append_two {α : Type} {a b : α} :
    ∀ {l : List α}, Even l.length → swapPairs (l ++ [a, b]) = swapPairs l ++ [b, a]
  | [], _ => rfl
  | [_], h => absurd h (by simp)
  | x :: y :: t, h => by
    have ht : Even t.length := by
      rcases h with ⟨m, hm⟩
      simp only [List.length_cons] at hm
      exact ⟨m - 1, by omega⟩
    show y :: x :: swapPairs (t ++ [a, b]) = y :: x :: (swapPairs t ++ [b, a])
    rw [swapPairs_append_two ht]

/-! ### Equation lemmas for the watershed step -/

theorem neighborComponents_both_none {N : Nat} {uf : Nat → Option Nat} {idx : Nat}
    (hL : uf (max (idx - 1) 0) = none) (hR : uf (min (idx + 1) (N - 1)) = none) :
    neighborComponents N uf idx = [] := by
  unfold neighborComponents
  rw [List.filterMap_cons, List.filterMap_cons, List.filterMap_nil, hL, hR]

theorem neighborComponents_left_only {N : Nat} {uf : Nat → Option Nat} {idx r : Nat}
    (hL : uf (max (idx - 1) 0) = some r) (hR : uf (min (idx + 1) (N - 1)) = none) :
    neighborComponents N uf idx = [r] := by
  unfold neighborComponents
  rw [List.filterMap_cons, List.filterMap_cons, List.filterMap_nil, hL, hR]

theorem neighborComponents_right_only {N : Nat} {uf : Nat → Option Nat} {idx r : Nat}
    (hL : uf (max (idx - 1) 0) = none) (hR : uf (min (idx + 1) (N - 1)) = some r) :
    neighborComponents N uf idx = [r] := by
  unfold neighborComponents
  rw [List.filterMap_cons, List.filterMap_cons, List.filterMap_nil, hL, hR]

theorem neighborComponents_both {N : Nat} {uf : Nat → Option Nat} {idx r1 r2 : Nat}
    (hL : uf (max (idx - 1) 0) = some r1) (hR : uf (min (idx + 1) (N - 1)) = some r2) :
    neighborComponents N uf idx = [r1, r2] := by
  unfold neighborComponents
  rw [List.filterMap_cons, List.filterMap_cons, List.filterMap_nil, hL, hR]

theorem watershedStep_empty {data : List ℤ} {ls : String} {s : WatershedState} {idx : Nat}
    (h : neighborComponents data.length s.uf idx = []) :
    watershedStep data ls s idx = { s with uf := UnionFind1D.make_set s.uf idx } := by
  unfold watershedStep
  rw [h]

theorem watershedStep_one {data : List ℤ} {ls : String} {s : WatershedState} {idx r : Nat}
    (h : neighborComponents data.length s.uf idx = [r]) :
    watershedStep data ls s idx = { s with uf := UnionFind1D.extend_set_by_id s.uf r idx } := by
  unfold watershedStep
  rw [h]

theorem watershedStep_cons_cons {data : List ℤ} {ls : String} {s : WatershedState}
    {idx r1 r2 : Nat} {rest : List Nat}
    (h : neighborComponents data.length s.uf idx = r1 :: r2 :: rest) :
    watershedStep data ls s idx =
      (if ls = "lower" then
        { uf := UnionFind1D.union
            (UnionFind1D.extend_set_by_id s.uf (if val data r1 ≤ val data r2 then r1 else r2) idx)
            (if r1 ≠ (if val data r1 ≤ val data r2 then r1 else r2) then r1 else r2)
            (if val data r1 ≤ val data r2 then r1 else r2),
          pairs := s.pairs ++
            [(some (if r1 ≠ (if val data r1 ≤ val data r2 then r1 else r2) then r1 else r2),
               ((val data idx -
                 val data (if r1 ≠ (if val data r1 ≤ val data r2 then r1 else r2) then r1 else r2) :
                   ℤ) : WithTop ℤ)),
             (some idx,
               ((val data idx -
                 val data (if r1 ≠ (if val data r1 ≤ val data r2 then r1 else r2) then r1 else r2) :
                   ℤ) : WithTop ℤ))] }
      else if ls = "upper" then
        { uf := UnionFind1D.union
            (UnionFind1D.extend_set_by_id s.uf (if val data r2 ≤ val data r1 then r1 else r2) idx)
            (if r1 ≠ (if val data r2 ≤ val data r1 then r1 else r2) then r1 else r2)
            (if val data r2 ≤ val data r1 then r1 else r2),
          pairs := s.pairs ++
            [(some idx,
               ((val data (if r1 ≠ (if val data r2 ≤ val data r1 then r1 else r2) then r1 else r2) -
                 val data idx : ℤ) : WithTop ℤ)),
             (some (if r1 ≠ (if val data r2 ≤ val data r1 then r1 else r2) then r1 else r2),
               ((val data (if r1 ≠ (if val data r2 ≤ val data r1 then r1 else r2) then r1 else r2) -
                 val data idx : ℤ) : WithTop ℤ))] }
      else s) := by
  unfold watershedStep
  rw [h]

theorem watershedStep_merge_lower_le {data : List ℤ} {s : WatershedState} {idx r1 r2 : Nat}
    (h : neighborComponents data.length s.uf idx = [r1, r2])
    (hv : val data r1 ≤ val data r2) :
    watershedStep data ("lower") s idx =
      { uf := UnionFind1D.union (UnionFind1D.extend_set_by_id s.uf r1 idx) r2 r1,
        pairs := s.pairs ++
          [(some r2, ((val data idx - val data r2 : ℤ) : WithTop ℤ)),
           (some idx, ((val data idx - val data r2 : ℤ) : WithTop ℤ))] } := by
  rw [watershedStep_cons_cons h]
  rw [if_pos rfl, if_pos hv, if_neg (by simp)]

theorem watershedStep_merge_lower_gt {data : List ℤ} {s : WatershedState} {idx r1 r2 : Nat}
    (h : neighborComponents data.length s.uf idx = [r1, r2])
    (hv : ¬ val data r1 ≤ val data r2) :
    watershedStep data ("lower") s idx =
      { uf := UnionFind1D.union (UnionFind1D.extend_set_by_id s.uf r2 idx) r1 r2,
        pairs := s.pairs ++
          [(some r1, ((val data idx - val data r1 : ℤ) : WithTop ℤ)),
           (some idx, ((val data idx - val data r1 : ℤ) : WithTop ℤ))] } := by
  have hne : r1 ≠ r2 := by
    intro he
    exact hv (le_of_eq (by rw [he]))
  rw [watershedStep_cons_cons h]
  rw [if_pos rfl, if_neg hv, if_pos (by simpa using hne)]

theorem watershedStep_merge_upper_ge {data : List ℤ} {s : WatershedState} {idx r1 r2 : Nat}
    (h : neighborComponents data.length s.uf idx = [r1, r2])
    (hv : val data r2 ≤ val data r1) :
    watershedStep data ("upper") s idx =
      { uf := UnionFind1D.union (UnionFind1D.extend_set_by_id s.uf r1 idx) r2 r1,
        pairs := s.pairs ++
          [(some idx, ((val data r2 - val data idx : ℤ) : WithTop ℤ)),
           (some r2, ((val data r2 - val data idx : ℤ) : WithTop ℤ))] } := by
  rw [watershedStep_cons_cons h]
  rw [if_neg (by decide : ¬ ("upper" : String) = "lower"), if_pos rfl, if_pos hv,
    if_neg (by simp)]

theorem watershedStep_merge_upper_lt {data : List ℤ} {s : WatershedState} {idx r1 r2 : Nat}
    (h : neighborComponents data.length s.uf idx = [r1, r2])
    (hv : ¬ val data r2 ≤ val data r1) :
    watershedStep data ("upper") s idx =
      { uf := UnionFind1D.union (UnionFind1D.extend_set_by_id s.uf r2 idx) r1 r2,
        pairs := s.pairs ++
          [(some idx, ((val data r1 - val data idx : ℤ) : WithTop ℤ)),
           (some r1, ((val data r1 - val data idx : ℤ) : WithTop ℤ))] } := by
  have hne : r1 ≠ r2 := by
    intro he
    exact hv (le_of_eq (by rw [he]))
  rw [watershedStep_cons_cons h]
  rw [if_neg (by decide : ¬ ("upper" : String) = "lower"), if_pos rfl, if_neg hv,
    if_pos (by simpa using hne)]

theorem watershedStep_merge_other {data : List ℤ} {ls : String} {s : WatershedState}
    {idx r1 r2 : Nat} (h : neighborComponents data.length s.uf idx = [r1, r2])
    (h1 : ls ≠ "lower") (h2 : ls ≠ "upper") :
    watershedStep data ls s idx = s := by
  rw [watershedStep_cons_cons h]
  rw [if_neg h1, if_neg h2]

/-! ### The watershed invariant -/

/-- A recorded pair whose extremum index is a local minimum and whose
persistence is non-negative. -/
def MinEntry (data : List ℤ) (e : Option Nat × WithTop ℤ) : Prop :=
  (∃ i, e.1 = some i ∧ IsMinPt data i) ∧ 0 ≤ e.2

/-- A recorded pair whose extremum index is a local maximum and whose
persistence is non-negative. -/
def MaxEntry (data : List ℤ) (e : Option Nat × WithTop ℤ) : Prop :=
  (∃ i, e.1 = some i ∧ IsMaxPt data i) ∧ 0 ≤ e.2

/-- Invariant carried through the watershed loop: the set elements are
exactly the processed indices, the union-find map is a collapsed
forest, every current root satisfies `rootPt` (local minimality for
lower level sets, local maximality for upper ones), and the recorded
pairs alternate min-entries at even positions with max-entries at odd
positions. -/
structure WatershedInv (data : List ℤ) (rootPt : Nat → Prop) (processed : List Nat)
    (s : WatershedState) : Prop where
  set_iff : ∀ j, (s.uf j).isSome ↔ j ∈ processed
  root_of : ∀ j r, s.uf j = some r → s.uf r = some r
  root_pt : ∀ r, s.uf r = some r → rootPt r
  pairs_alt : Alt2 (MinEntry data) (MaxEntry data) s.pairs

theorem invL_step (data : List ℤ) {l₁ : List Nat} {idx : Nat} {l₂ : List Nat}
    {s : WatershedState} (hsplit : argsort data = l₁ ++ idx :: l₂)
    (inv : WatershedInv data (IsMinPt data) l₁ s) :
    WatershedInv data (IsMinPt data) (l₁ ++ [idx]) (watershedStep data ("lower") s idx) := by
  have hsorted := argsort_sorted data
  have hnodup := argsort_nodup data
  rw [hsplit] at hsorted hnodup
  have hsp := List.pairwise_append.mp hsorted
  have hbefore : ∀ j ∈ l₁, argOrder data j idx :=
    fun j hj => hsp.2.2 j hj idx (List.mem_cons_self idx l₂)
  have hafter : ∀ j ∈ l₂, argOrder data idx j := (List.pairwise_cons.mp hsp.2.1).1
  have hidx_not : idx ∉ l₁ := by
    have hd := (List.nodup_append.mp hnodup).2.2
    intro hmem
    exact hd hmem (List.mem_cons_self idx l₂)
  have hidxN : idx < data.length := by
    rw [← argsort_mem data idx, hsplit]
    exact List.mem_append_right _ (List.mem_cons_self idx l₂)
  have hmemsplit : ∀ j, j < data.length → j ∈ l₁ ∨ j = idx ∨ j ∈ l₂ := by
    intro j hj
    have hj2 : j ∈ l₁ ++ idx :: l₂ := by
      rw [← hsplit]
      exact (argsort_mem data j).mpr hj
    rcases List.mem_append.mp hj2 with h | h
    · exact Or.inl h
    · rcases List.mem_cons.mp h with h | h
      · exact Or.inr (Or.inl h)
      · exact Or.inr (Or.inr h)
  have hset_mem : ∀ j, (s.uf j).isSome → j ∈ l₁ := fun j h => (inv.set_iff j).mp h
  have hval_before : ∀ j ∈ l₁, val data j ≤ val data idx :=
    fun j hj => argOrder_le (hbefore j hj)
  have hval_unset : ∀ j, j < data.length → s.uf j = none → val data idx ≤ val data j := by
    intro j hjN hj
    rcases hmemsplit j hjN with h | h | h
    · exfalso
      have hs := (inv.set_iff j).mpr h
      rw [hj] at hs
      simp at hs
    · rw [h]
    · exact argOrder_le (hafter j h)
  have hidx_none : s.uf idx = none := by
    cases hu : s.uf idx with
    | none => rfl
    | some r => exact absurd (hset_mem idx (by rw [hu]; rfl)) hidx_not
  have hlN : max (idx - 1) 0 < data.length := by
    have h1 : max (idx - 1) 0 ≤ idx := by
      rw [Nat.max_zero]
      omega
    omega
  have hrN : min (idx + 1) (data.length - 1) < data.length := by
    have h1 : min (idx + 1) (data.length - 1) ≤ data.length - 1 := Nat.min_le_right _ _
    omega
  have hmem_new : ∀ j, j ∈ l₁ ++ [idx] ↔ (j = idx ∨ j ∈ l₁) := by
    intro j
    simp [List.mem_append]
    tauto
  rcases hL : s.uf (max (idx - 1) 0) with _ | r1 <;>
    rcases hR : s.uf (min (idx + 1) (data.length - 1)) with _ | r2
  · -- no neighbouring component: make_set
    rw [watershedStep_empty (neighborComponents_both_none hL hR)]
    refine ⟨?_, ?_, ?_, ?_⟩
    · intro j
      rw [UnionFind1D.make_set_isSome s.uf idx j, inv.set_iff j, hmem_new j]
    · exact UnionFind1D.make_set_root_of s.uf idx inv.root_of hidx_none
    · intro r hr
      rcases UnionFind1D.make_set_root_sub s.uf idx r hr with h | h
      · exact inv.root_pt r h
      · subst h
        exact ⟨hval_unset _ hlN hL, hval_unset _ hrN hR⟩
    · exact inv.pairs_alt
  · -- only the right component: extend it
    have hr2root : s.uf r2 = some r2 := inv.root_of _ r2 hR
    rw [watershedStep_one (neighborComponents_right_only hL hR)]
    refine ⟨?_, ?_, ?_, ?_⟩
    · intro j
      rw [UnionFind1D.extend_isSome s.uf r2 idx j, inv.set_iff j, hmem_new j]
    · exact UnionFind1D.extend_root_of s.uf r2 idx inv.root_of hr2root hidx_none
    · intro r hr
      exact inv.root_pt r (UnionFind1D.extend_root_sub s.uf r2 idx hr2root hidx_none r hr)
    · exact inv.pairs_alt
  · -- only the left component: extend it
    have hr1root : s.uf r1 = some r1 := inv.root_of _ r1 hL
    rw [watershedStep_one (neighborComponents_left_only hL hR)]
    refine ⟨?_, ?_, ?_, ?_⟩
    · intro j
      rw [UnionFind1D.extend_isSome s.uf r1 idx j, inv.set_iff j, hmem_new j]
    · exact UnionFind1D.extend_root_of s.uf r1 idx inv.root_of hr1root hidx_none
    · intro r hr
      exact inv.root_pt r (UnionFind1D.extend_root_sub s.uf r1 idx hr1root hidx_none r hr)
    · exact inv.pairs_alt
  · -- merge event
    have hr1root : s.uf r1 = some r1 := inv.root_of _ r1 hL
    have hr2root : s.uf r2 = some r2 := inv.root_of _ r2 hR
    have hr1mem : r1 ∈ l₁ := hset_mem r1 (by rw [hr1root]; rfl)
    have hr2mem : r2 ∈ l₁ := hset_mem r2 (by rw [hr2root]; rfl)
    have hv1 : val data r1 ≤ val data idx := hval_before r1 hr1mem
    have hv2 : val data r2 ≤ val data idx := hval_before r2 hr2mem
    have hLmem : max (idx - 1) 0 ∈ l₁ := hset_mem _ (by rw [hL]; rfl)
    have hRmem : min (idx + 1) (data.length - 1) ∈ l₁ := hset_mem _ (by rw [hR]; rfl)
    have hmax_idx : IsMaxPt data idx := ⟨hval_before _ hLmem, hval_before _ hRmem⟩
    have hnc := neighborComponents_both hL hR
    by_cases hv : val data r1 ≤ val data r2
    · rw [watershedStep_merge_lower_le hnc hv]
      refine ⟨?_, ?_, ?_, ?_⟩
      · intro j
        rw [UnionFind1D.unionExtend_isSome s.uf r1 r2 idx j, inv.set_iff j, hmem_new j]
      · exact UnionFind1D.unionExtend_root_of s.uf r1 r2 idx inv.root_of hr1root hidx_none
      · intro r hr
        exact inv.root_pt r
          (UnionFind1D.unionExtend_root_sub s.uf r1 r2 idx hr1root hidx_none r hr)
      · apply alt2_append inv.pairs_alt
        · refine ⟨⟨r2, rfl, inv.root_pt r2 hr2root⟩, ?_⟩
          show (0 : WithTop ℤ) ≤ ((val data idx - val data r2 : ℤ) : WithTop ℤ)
          exact_mod_cast sub_nonneg.mpr hv2
        · refine ⟨⟨idx, rfl, hmax_idx⟩, ?_⟩
          show (0 : WithTop ℤ) ≤ ((val data idx - val data r2 : ℤ) : WithTop ℤ)
          exact_mod_cast sub_nonneg.mpr hv2
    · rw [watershedStep_merge_lower_gt hnc hv]
      refine ⟨?_, ?_, ?_, ?_⟩
      · intro j
        rw [UnionFind1D.unionExtend_isSome s.uf r2 r1 idx j, inv.set_iff j, hmem_new j]
      · exact UnionFind1D.unionExtend_root_of s.uf r2 r1 idx inv.root_of hr2root hidx_none
      · intro r hr
        exact inv.root_pt r
          (UnionFind1D.unionExtend_root_sub s.uf r2 r1 idx hr2root hidx_none r hr)
      · apply alt2_append inv.pairs_alt
        · refine ⟨⟨r1, rfl, inv.root_pt r1 hr1root⟩, ?_⟩
          show (0 : WithTop ℤ) ≤ ((val data idx - val data r1 : ℤ) : WithTop ℤ)
          exact_mod_cast sub_nonneg.mpr hv1
        · refine ⟨⟨idx, rfl, hmax_idx⟩, ?_⟩
          show (0 : WithTop ℤ) ≤ ((val data idx - val data r1 : ℤ) : WithTop ℤ)
          exact_mod_cast sub_nonneg.mpr hv1

theorem invU_step (data : List ℤ) {l₁ : List Nat} {idx : Nat} {l₂ : List Nat}
    {s : WatershedState} (hsplit : (argsort data).reverse = l₁ ++ idx :: l₂)
    (inv : WatershedInv data (IsMaxPt data) l₁ s) :
    WatershedInv data (IsMaxPt data) (l₁ ++ [idx]) (watershedStep data ("upper") s idx) := by
  have hsorted : List.Pairwise (fun a b => argOrder data b a) ((argsort data).reverse) :=
    List.pairwise_reverse.mpr (argsort_sorted data)
  have hnodup : ((argsort data).reverse).Nodup := List.nodup_reverse.mpr (argsort_nodup data)
  rw [hsplit] at hsorted hnodup
  have hsp := List.pairwise_append.mp hsorted
  have hbefore : ∀ j ∈ l₁, argOrder data idx j :=
    fun j hj => hsp.2.2 j hj idx (List.mem_cons_self idx l₂)
  have hafter : ∀ j ∈ l₂, argOrder data j idx := (List.pairwise_cons.mp hsp.2.1).1
  have hidx_not : idx ∉ l₁ := by
    have hd := (List.nodup_append.mp hnodup).2.2
    intro hmem
    exact hd hmem (List.mem_cons_self idx l₂)
  have hidxN : idx < data.length := by
    rw [← argsort_mem data idx, ← List.mem_reverse, hsplit]
    exact List.mem_append_right _ (List.mem_cons_self idx l₂)
  have hmemsplit : ∀ j, j < data.length → j ∈ l₁ ∨ j = idx ∨ j ∈ l₂ := by
    intro j hj
    have hj2 : j ∈ l₁ ++ idx :: l₂ := by
      rw [← hsplit, List.mem_reverse]
      exact (argsort_mem data j).mpr hj
    rcases List.mem_append.mp hj2 with h | h
    · exact Or.inl h
    · rcases List.mem_cons.mp h with h | h
      · exact Or.inr (Or.inl h)
      · exact Or.inr (Or.inr h)
  have hset_mem : ∀ j, (s.uf j).isSome → j ∈ l₁ := fun j h => (inv.set_iff j).mp h
  have hval_before : ∀ j ∈ l₁, val data idx ≤ val data j :=
    fun j hj => argOrder_le (hbefore j hj)
  have hval_unset : ∀ j, j < data.length → s.uf j = none → val data j ≤ val data idx := by
    intro j hjN hj
    rcases hmemsplit j hjN with h | h | h
    · exfalso
      have hs := (inv.set_iff j).mpr h
      rw [hj] at hs
      simp at hs
    · rw [h]
    · exact argOrder_le (hafter j h)
  have hidx_none : s.uf idx = none := by
    cases hu : s.uf idx with
    | none => rfl
    | some r => exact absurd (hset_mem idx (by rw [hu]; rfl)) hidx_not
  have hlN : max (idx - 1) 0 < data.length := by
    have h1 : max (idx - 1) 0 ≤ idx := by
      rw [Nat.max_zero]
      omega
    omega
  have hrN : min (idx + 1) (data.length - 1) < data.length := by
    have h1 : min (idx + 1) (data.length - 1) ≤ data.length - 1 := Nat.min_le_right _ _
    omega
  have hmem_new : ∀ j, j ∈ l₁ ++ [idx] ↔ (j = idx ∨ j ∈ l₁) := by
    intro j
    simp [List.mem_append]
    tauto
  rcases hL : s.uf (max (idx - 1) 0) with _ | r1 <;>
    rcases hR : s.uf (min (idx + 1) (data.length - 1)) with _ | r2
  · rw [watershedStep_empty (neighborComponents_both_none hL hR)]
    refine ⟨?_, ?_, ?_, ?_⟩
    · intro j
      rw [UnionFind1D.make_set_isSome s.uf idx j, inv.set_iff j, hmem_new j]
    · exact UnionFind1D.make_set_root_of s.uf idx inv.root_of hidx_none
    · intro r hr
      rcases UnionFind1D.make_set_root_sub s.uf idx r hr with h | h
      · exact inv.root_pt r h
      · subst h
        exact ⟨hval_unset _ hlN hL, hval_unset _ hrN hR⟩
    · exact inv.pairs_alt
  · have hr2root : s.uf r2 = some r2 := inv.root_of _ r2 hR
    rw [watershedStep_one (neighborComponents_right_only hL hR)]
    refine ⟨?_, ?_, ?_, ?_⟩
    · intro j
      rw [UnionFind1D.extend_isSome s.uf r2 idx j, inv.set_iff j, hmem_new j]
    · exact UnionFind1D.extend_root_of s.uf r2 idx inv.root_of hr2root hidx_none
    · intro r hr
      exact inv.root_pt r (UnionFind1D.extend_root_sub s.uf r2 idx hr2root hidx_none r hr)
    · exact inv.pairs_alt
  · have hr1root : s.uf r1 = some r1 := inv.root_of _ r1 hL
    rw [watershedStep_one (neighborComponents_left_only hL hR)]
    refine ⟨?_, ?_, ?_, ?_⟩
    · intro j
      rw [UnionFind1D.extend_isSome s.uf r1 idx j, inv.set_iff j, hmem_new j]
    · exact UnionFind1D.extend_root_of s.uf r1 idx inv.root_of hr1root hidx_none
    · intro r hr
      exact inv.root_pt r (UnionFind1D.extend_root_sub s.uf r1 idx hr1root hidx_none r hr)
    · exact inv.pairs_alt
  · have hr1root : s.uf r1 = some r1 := inv.root_of _ r1 hL
    have hr2root : s.uf r2 = some r2 := inv.root_of _ r2 hR
    have hr1mem : r1 ∈ l₁ := hset_mem r1 (by rw [hr1root]; rfl)
    have hr2mem : r2 ∈ l₁ := hset_mem r2 (by rw [hr2root]; rfl)
    have hv1 : val data idx ≤ val data r1 := hval_before r1 hr1mem
    have hv2 : val data idx ≤ val data r2 := hval_before r2 hr2mem
    have hLmem : max (idx - 1) 0 ∈ l₁ := hset_mem _ (by rw [hL]; rfl)
    have hRmem : min (idx + 1) (data.length - 1) ∈ l₁ := hset_mem _ (by rw [hR]; rfl)
    have hmin_idx : IsMinPt data idx := ⟨hval_before _ hLmem, hval_before _ hRmem⟩
    have hnc := neighborComponents_both hL hR
    by_cases hv : val data r2 ≤ val data r1
    · rw [watershedStep_merge_upper_ge hnc hv]
      refine ⟨?_, ?_, ?_, ?_⟩
      · intro j
        rw [UnionFind1D.unionExtend_isSome s.uf r1 r2 idx j, inv.set_iff j, hmem_new j]
      · exact UnionFind1D.unionExtend_root_of s.uf r1 r2 idx inv.root_of hr1root hidx_none
      · intro r hr
        exact inv.root_pt r
          (UnionFind1D.unionExtend_root_sub s.uf r1 r2 idx hr1root hidx_none r hr)
      · apply alt2_append inv.pairs_alt
        · refine ⟨⟨idx, rfl, hmin_idx⟩, ?_⟩
          show (0 : WithTop ℤ) ≤ ((val data r2 - val data idx : ℤ) : WithTop ℤ)
          exact_mod_cast sub_nonneg.mpr hv2
        · refine ⟨⟨r2, rfl, inv.root_pt r2 hr2root⟩, ?_⟩
          show (0 : WithTop ℤ) ≤ ((val data r2 - val data idx : ℤ) : WithTop ℤ)
          exact_mod_cast sub_nonneg.mpr hv2
    · rw [watershedStep_merge_upper_lt hnc hv]
      refine ⟨?_, ?_, ?_, ?_⟩
      · intro j
        rw [UnionFind1D.unionExtend_isSome s.uf r2 r1 idx j, inv.set_iff j, hmem_new j]
      · exact UnionFind1D.unionExtend_root_of s.uf r2 r1 idx inv.root_of hr2root hidx_none
      · intro r hr
        exact inv.root_pt r
          (UnionFind1D.unionExtend_root_sub s.uf r2 r1 idx hr2root hidx_none r hr)
      · apply alt2_append inv.pairs_alt
        · refine ⟨⟨idx, rfl, hmin_idx⟩, ?_⟩
          show (0 : WithTop ℤ) ≤ ((val data r1 - val data idx : ℤ) : WithTop ℤ)
          exact_mod_cast sub_nonneg.mpr hv1
        · refine ⟨⟨r1, rfl, inv.root_pt r1 hr1root⟩, ?_⟩
          show (0 : WithTop ℤ) ≤ ((val data r1 - val data idx : ℤ) : WithTop ℤ)
          exact_mod_cast sub_nonneg.mpr hv1

/-- The watershed state after processing the full index order of the
lower-level-set sweep. -/
def lowerState (data : List ℤ) : WatershedState :=
  (argsort data).foldl (watershedStep data ("lower")) ⟨fun _ => none, []⟩

/-- The watershed state after processing the full index order of the
upper-level-set sweep. -/
def upperState (data : List ℤ) : WatershedState :=
  ((argsort data).reverse).foldl (watershedStep data ("upper")) ⟨fun _ => none, []⟩

theorem inv_init (data : List ℤ) (rootPt : Nat → Prop) :
    WatershedInv data rootPt [] ⟨fun _ => none, []⟩ := by
  refine ⟨?_, ?_, ?_, trivial⟩
  · intro j
    simp
  · intro j r h
    exact Option.noConfusion h
  · intro r h
    exact Option.noConfusion h

theorem invL_fold (data : List ℤ) :
    ∀ (l₂ l₁ : List Nat) (s : WatershedState),
      argsort data = l₁ ++ l₂ → WatershedInv data (IsMinPt data) l₁ s →
      WatershedInv data (IsMinPt data) (l₁ ++ l₂)
        (l₂.foldl (watershedStep data ("lower")) s)
  | [], l₁, s, _, inv => by simpa using inv
  | idx :: t, l₁, s, hsplit, inv => by
    have hstep := invL_step data hsplit inv
    have hrec := invL_fold data t (l₁ ++ [idx]) (watershedStep data ("lower") s idx)
      (by rw [hsplit]; simp) hstep
    simpa [List.foldl_cons] using hrec

theorem invU_fold (data : List ℤ) :
    ∀ (l₂ l₁ : List Nat) (s : WatershedState),
      (argsort data).reverse = l₁ ++ l₂ → WatershedInv data (IsMaxPt data) l₁ s →
      WatershedInv data (IsMaxPt data) (l₁ ++ l₂)
        (l₂.foldl (watershedStep data ("upper")) s)
  | [], l₁, s, _, inv => by simpa using inv
  | idx :: t, l₁, s, hsplit, inv => by
    have hstep := invU_step data hsplit inv
    have hrec := invU_fold data t (l₁ ++ [idx]) (watershedStep data ("upper") s idx)
      (by rw [hsplit]; simp) hstep
    simpa [List.foldl_cons] using hrec

theorem invL_run (data : List ℤ) :
    WatershedInv data (IsMinPt data) (argsort data) (lowerState data) := by
  have h := invL_fold data (argsort data) [] ⟨fun _ => none, []⟩ (by simp)
    (inv_init data (IsMinPt data))
  simpa [lowerState] using h

theorem invU_run (data : List ℤ) :
    WatershedInv data (IsMaxPt data) ((argsort data).reverse) (upperState data) := by
  have h := invU_fold data ((argsort data).reverse) [] ⟨fun _ => none, []⟩ (by simp)
    (inv_init data (IsMaxPt data))
  simpa [upperState] using h

theorem run_persistence_lower_eq (data : List ℤ) :
    run_persistence data ("lower") =
      (lowerState data).pairs ++ [(UnionFind1D.find (lowerState data).uf 0, ⊤)] := rfl

theorem run_persistence_upper_eq (data : List ℤ) :
    run_persistence data ("upper") =
      (upperState data).pairs ++ [(UnionFind1D.find (upperState data).uf 0, ⊤)] := rfl

theorem lowerState_find0 (data : List ℤ) (hN : 1 ≤ data.length) :
    ∃ r, UnionFind1D.find (lowerState data).uf 0 = some r ∧ IsMinPt data r := by
  have inv := invL_run data
  have h0 : (0 : Nat) ∈ argsort data := (argsort_mem data 0).mpr (by omega)
  have hs : ((lowerState data).uf 0).isSome := (inv.set_iff 0).mpr h0
  rcases hu : (lowerState data).uf 0 with _ | r
  · rw [hu] at hs
    simp at hs
  · exact ⟨r, hu, inv.root_pt r (inv.root_of 0 r hu)⟩

theorem upperState_find0 (data : List ℤ) (hN : 1 ≤ data.length) :
    ∃ r, UnionFind1D.find (upperState data).uf 0 = some r ∧ IsMaxPt data r := by
  have inv := invU_run data
  have h0 : (0 : Nat) ∈ (argsort data).reverse := by
    rw [List.mem_reverse]
    exact (argsort_mem data 0).mpr (by omega)
  have hs : ((upperState data).uf 0).isSome := (inv.set_iff 0).mpr h0
  rcases hu : (upperState data).uf 0 with _ | r
  · rw [hu] at hs
    simp at hs
  · exact ⟨r, hu, inv.root_pt r (inv.root_of 0 r hu)⟩

theorem get_append_concat {α : Type} (l : List α) (x : α) (k : Nat)
    (hk : k < (l ++ [x]).length) :
    (∀ (h : k < l.length), (l ++ [x]).get ⟨k, hk⟩ = l.get ⟨k, h⟩) ∧
    (k = l.length → (l ++ [x]).get ⟨k, hk⟩ = x) := by
  constructor
  · intro h
    rw [List.get_eq_getElem, List.get_eq_getElem, List.getElem_append_left h]
  · intro h
    subst h
    rw [List.get_eq_getElem, List.getElem_append_right (le_refl _)]
    simp

/-- C3: for every input signal and for both modes, every persistence
value recorded by `run_persistence` — the final global entry included,
since its persistence is `⊤` — is non-negative. -/
theorem C3_persistence_nonneg (data : List ℤ) (e : Option Nat × WithTop ℤ)
    (h : e ∈ run_persistence data ("lower") ∨ e ∈ run_persistence data ("upper")) :
    0 ≤ e.2 := by
  rcases h with h | h
  · rw [run_persistence_lower_eq] at h
    rcases List.mem_append.mp h with h2 | h2
    · rcases alt2_mem (invL_run data).pairs_alt e h2 with h3 | h3
      · exact h3.2
      · exact h3.2
    · have he : e = (UnionFind1D.find (lowerState data).uf 0, ⊤) := by simpa using h2
      rw [he]
      exact le_top
  · rw [run_persistence_upper_eq] at h
    rcases List.mem_append.mp h with h2 | h2
    · rcases alt2_mem (invU_run data).pairs_alt e h2 with h3 | h3
      · exact h3.2
      · exact h3.2
    · have he : e = (UnionFind1D.find (upperState data).uf 0, ⊤) := by simpa using h2
      rw [he]
      exact le_top

theorem C3_witness : (0 : WithTop ℤ) ≤
    ((some 2, (((3 : ℤ)) : WithTop ℤ)) : Option Nat × WithTop ℤ).2 :=
  C3_persistence_nonneg [1, 5, 2] (some 2, (((3 : ℤ)) : WithTop ℤ)) (Or.inl (by decide))

/-- C1, counterexample: on the signal `[0, 1]` (length 2, lower level
sets) `run_persistence` returns a single entry — the global minimum —
and not `N = 2` pairs as the claim asserts. -/
theorem C1_counterexample :
    ¬ ((run_persistence ([0, 1] : List ℤ) ("lower")).length = ([0, 1] : List ℤ).length) := by
  decide

/-- C1, amended: for every signal of length at least 2 and either
mode, `run_persistence` returns an odd number of entries (two per
merge event plus the unpaired global entry) and the final entry's
persistence is exactly `+∞`. -/
theorem C1_amended (data : List ℤ) (level_sets : String)
    (hm : level_sets = "lower" ∨ level_sets = "upper") (hN : 2 ≤ data.length) :
    Odd (run_persistence data level_sets).length ∧
      (run_persistence data level_sets).getLast?.map Prod.snd = some ⊤ := by
  rcases hm with rfl | rfl
  · rw [run_persistence_lower_eq]
    constructor
    · rcases alt2_even (invL_run data).pairs_alt with ⟨m, hm2⟩
      refine ⟨m, ?_⟩
      rw [List.length_append, hm2]
      simp
      omega
    · rw [List.getLast?_concat]
      rfl
  · rw [run_persistence_upper_eq]
    constructor
    · rcases alt2_even (invU_run data).pairs_alt with ⟨m, hm2⟩
      refine ⟨m, ?_⟩
      rw [List.length_append, hm2]
      simp
      omega
    · rw [List.getLast?_concat]
      rfl

theorem C1_witness :
    Odd (run_persistence ([1, 2] : List ℤ) ("lower")).length ∧
      (run_persistence ([1, 2] : List ℤ) ("lower")).getLast?.map Prod.snd = some ⊤ :=
  C1_amended [1, 2] ("lower") (Or.inl rfl) (by decide)

/-- C4, counterexample: the claim puts minima at odd 0-indexed
positions under lower level sets, but on `[1, 5, 2]` the entry at even
position 0 is `(some 2, 3)`, and index 2 is a local minimum of the
signal, not a local maximum. -/
theorem C4_counterexample :
    (run_persistence ([1, 5, 2] : List ℤ) ("lower")).head? =
        some (some 2, (((3 : ℤ)) : WithTop ℤ)) ∧
      ¬ IsMaxPt ([1, 5, 2] : List ℤ) 2 ∧ IsMinPt ([1, 5, 2] : List ℤ) 2 := by
  decide

/-- C4, amended: for every non-empty signal the returned list has an
odd number of entries; with `level_sets="lower"` the even-position
entries (0-indexed) are minima and the odd-position entries are
maxima; with `level_sets="upper"` the same parity convention holds for
the paired entries, except that the final entry — which sits at an
even position — is the global maximum rather than a minimum. -/
theorem C4_amended (data : List ℤ) (hN : 1 ≤ data.length) :
    Odd (run_persistence data ("lower")).length ∧
    Odd (run_persistence data ("upper")).length ∧
    (∀ k (hk : k < (run_persistence data ("lower")).length),
      (k % 2 = 0 →
        ∃ i, ((run_persistence data ("lower")).get ⟨k, hk⟩).1 = some i ∧ IsMinPt data i) ∧
      (k % 2 = 1 →
        ∃ i, ((run_persistence data ("lower")).get ⟨k, hk⟩).1 = some i ∧ IsMaxPt data i)) ∧
    (∀ k (hk : k < (run_persistence data ("upper")).length),
      (k % 2 = 1 →
        ∃ i, ((run_persistence data ("upper")).get ⟨k, hk⟩).1 = some i ∧ IsMaxPt data i) ∧
      (k % 2 = 0 → k + 1 < (run_persistence data ("upper")).length →
        ∃ i, ((run_persistence data ("upper")).get ⟨k, hk⟩).1 = some i ∧ IsMinPt data i) ∧
      (k + 1 = (run_persistence data ("upper")).length →
        ∃ i, ((run_persistence data ("upper")).get ⟨k, hk⟩).1 = some i ∧ IsMaxPt data i)) := by
  rcases alt2_even (invL_run data).pairs_alt with ⟨mL, hmL⟩
  rcases alt2_even (invU_run data).pairs_alt with ⟨mU, hmU⟩
  have hlenL : (run_persistence data ("lower")).length = (lowerState data).pairs.length + 1 := by
    rw [run_persistence_lower_eq, List.length_append]
    simp
  have hlenU : (run_persistence data ("upper")).length = (upperState data).pairs.length + 1 := by
    rw [run_persistence_upper_eq, List.length_append]
    simp
  refine ⟨?_, ?_, ?_, ?_⟩
  · rw [hlenL, hmL]
    exact ⟨mL, by omega⟩
  · rw [hlenU, hmU]
    exact ⟨mU, by omega⟩
  · intro k hk
    have hgeq := List.get_of_eq (run_persistence_lower_eq data) ⟨k, hk⟩
    rw [hgeq]
    have hk2 : k < (lowerState data).pairs.length + 1 := by
      rw [hlenL] at hk
      exact hk
    by_cases hkp : k < (lowerState data).pairs.length
    · rw [(get_append_concat _ _ k _).1 hkp]
      have hget := alt2_get (invL_run data).pairs_alt k hkp
      constructor
      · intro he
        exact (hget.1 he).1
      · intro ho
        exact (hget.2 ho).1
    · have hke : k = (lowerState data).pairs.length := by omega
      rw [(get_append_concat _ _ k _).2 hke]
      rcases lowerState_find0 data hN with ⟨r, hr, hrmin⟩
      constructor
      · intro _
        exact ⟨r, hr, hrmin⟩
      · intro ho
        exfalso
        rw [hke, hmL] at ho
        omega
  · intro k hk
    have hgeq := List.get_of_eq (run_persistence_upper_eq data) ⟨k, hk⟩
    rw [hgeq]
    have hk2 : k < (upperState data).pairs.length + 1 := by
      rw [hlenU] at hk
      exact hk
    by_cases hkp : k < (upperState data).pairs.length
    · rw [(get_append_concat _ _ k _).1 hkp]
      have hget := alt2_get (invU_run data).pairs_alt k hkp
      refine ⟨?_, ?_, ?_⟩
      · intro ho
        exact (hget.2 ho).1
      · intro he _
        exact (hget.1 he).1
      · intro hlast
        exfalso
        rw [hlenU] at hlast
        omega
    · have hke : k = (upperState data).pairs.length := by omega
      rw [(get_append_concat _ _ k _).2 hke]
      rcases upperState_find0 data hN with ⟨r, hr, hrmax⟩
      refine ⟨?_, ?_, ?_⟩
      · intro ho
        exfalso
        rw [hke, hmU] at ho
        omega
      · intro _ hcontra
        exfalso
        rw [hlenU] at hcontra
        omega
      · intro _
        exact ⟨r, hr, hrmax⟩

theorem C4_witness :
    Odd (run_persistence ([1, 5, 2] : List ℤ) ("lower")).length :=
  (C4_amended [1, 5, 2] (by decide)).1

/-- C9: on every signal of length exactly 1, `run_persistence` (for
either mode) performs a single `make_set` and returns exactly the one
entry `(0, +∞)`; no error path exists. -/
theorem C9_singleton_signal (x : ℤ) :
    run_persistence [x] ("lower") = [(some 0, ⊤)] ∧
      run_persistence [x] ("upper") = [(some 0, ⊤)] :=
  ⟨rfl, rfl⟩

theorem watershedStep_pairs_other (data : List ℤ) (ls : String) (s : WatershedState)
    (idx : Nat) (h1 : ls ≠ "lower") (h2 : ls ≠ "upper") :
    (watershedStep data ls s idx).pairs = s.pairs := by
  rcases hnc : neighborComponents data.length s.uf idx with _ | ⟨r1, _ | ⟨r2, rest⟩⟩
  · rw [watershedStep_empty hnc]
  · rw [watershedStep_one hnc]
  · rw [watershedStep_cons_cons hnc, if_neg h1, if_neg h2]

theorem foldl_pairs_other (data : List ℤ) (ls : String)
    (h1 : ls ≠ "lower") (h2 : ls ≠ "upper") :
    ∀ (l : List Nat) (s : WatershedState), (l.foldl (watershedStep data ls) s).pairs = s.pairs
  | [], _ => rfl
  | idx :: t, s => by
    rw [List.foldl_cons, foldl_pairs_other data ls h1 h2 t _,
      watershedStep_pairs_other data ls s idx h1 h2]

/-- C10: for every `level_sets` argument other than the strings
`"lower"` and `"upper"`, `run_persistence` silently returns the empty
list: the merge branch records nothing and no trailing global entry is
appended. -/
theorem C10_unknown_mode (data : List ℤ) (ls : String)
    (h1 : ls ≠ "lower") (h2 : ls ≠ "upper") :
    run_persistence data ls = [] := by
  unfold run_persistence
  simp only [if_neg h1, if_neg h2]
  exact foldl_pairs_other data ls h1 h2 _ _

theorem C10_witness : run_persistence ([1, 2, 3] : List ℤ) ("mid") = [] :=
  C10_unknown_mode [1, 2, 3] ("mid") (by decide) (by decide)

/-- C7: `FilterExtremumPointsByPersistence` is idempotent — filtering
an already-filtered pair sequence by the same threshold returns it
unchanged. -/
theorem C7_filter_idempotent (l : List (Option Nat × WithTop ℤ)) (t : WithTop ℤ) :
    FilterExtremumPointsByPersistence (FilterExtremumPointsByPersistence l t) t =
      FilterExtremumPointsByPersistence l t := by
  unfold FilterExtremumPointsByPersistence
  rw [List.filter_filter]
  simp

/-- C6, counterexample: on `[1, 5, 2, 8, 3]` with lower level sets the
pair recorded for the maximum at index 1 carries persistence `3 =
data[1] - data[2]`, the difference to the *higher*-valued neighbouring
minimum (index 2, the merged-away root), whereas the claim's formula —
difference between the merging maximum and the *lower*-valued
neighbouring minimum (index 0) — would give `5 - 1 = 4 ≠ 3`. -/
theorem C6_counterexample :
    run_persistence ([1, 5, 2, 8, 3] : List ℤ) ("lower") =
      [(some 2, (((3 : ℤ)) : WithTop ℤ)), (some 1, (((3 : ℤ)) : WithTop ℤ)),
       (some 4, (((5 : ℤ)) : WithTop ℤ)), (some 3, (((5 : ℤ)) : WithTop ℤ)),
       (some 0, ⊤)] ∧
    (((3 : ℤ)) : WithTop ℤ) ≠
      ((val ([1, 5, 2, 8, 3] : List ℤ) 1 - val ([1, 5, 2, 8, 3] : List ℤ) 0 : ℤ) : WithTop ℤ) := by
  decide

/-- C6, amended: on `[1, 5, 2, 8, 3]` with lower level sets,
`run_persistence` identifies the local minima 0, 2, 4 and the local
maxima 1, 3; it pairs minimum 2 with maximum 1 and minimum 4 with
maximum 3; each recorded persistence equals the merging maximum's
value minus the value of the *higher*-valued (merged-away)
neighbouring minimum; and the global minimum, index 0, is the final
entry with persistence `+∞`. -/
theorem C6_amended :
    run_persistence ([1, 5, 2, 8, 3] : List ℤ) ("lower") =
      [(some 2, (((3 : ℤ)) : WithTop ℤ)), (some 1, (((3 : ℤ)) : WithTop ℤ)),
       (some 4, (((5 : ℤ)) : WithTop ℤ)), (some 3, (((5 : ℤ)) : WithTop ℤ)),
       (some 0, ⊤)] ∧
    IsMinPt ([1, 5, 2, 8, 3] : List ℤ) 0 ∧ IsMinPt ([1, 5, 2, 8, 3] : List ℤ) 2 ∧
    IsMinPt ([1, 5, 2, 8, 3] : List ℤ) 4 ∧
    IsMaxPt ([1, 5, 2, 8, 3] : List ℤ) 1 ∧ IsMaxPt ([1, 5, 2, 8, 3] : List ℤ) 3 ∧
    (((3 : ℤ)) : WithTop ℤ) =
      ((val ([1, 5, 2, 8, 3] : List ℤ) 1 - val ([1, 5, 2, 8, 3] : List ℤ) 2 : ℤ) : WithTop ℤ) ∧
    (((5 : ℤ)) : WithTop ℤ) =
      ((val ([1, 5, 2, 8, 3] : List ℤ) 3 - val ([1, 5, 2, 8, 3] : List ℤ) 4 : ℤ) : WithTop ℤ) ∧
    (run_persistence ([1, 5, 2, 8, 3] : List ℤ) ("lower")).getLast? = some (some 0, ⊤) := by
  decide

/-- C2: the behaviour of a merge event (two distinct components
touching `idx`).  With lower level sets the surviving root `lo` is the
neighbour root with the numerically smallest value: the component is
extended to `idx` and the other root `hi` is unioned into `lo`; the
recorded persistence is `data[idx] - data[hi]` (`hi` the merged-away
root) and the two entries are appended as `(hi, p)` then `(idx, p)`.
With upper level sets the surviving root `sur` carries the largest
value, the persistence is `data[mer] - data[idx]` for the merged-away
root `mer`, and the entries are appended as `(idx, p)` then
`(mer, p)`. -/
theorem C2_merge_event (data : List ℤ) (s : WatershedState) (idx r1 r2 : Nat)
    (h : neighborComponents data.length s.uf idx = [r1, r2]) (hne : r1 ≠ r2) :
    (∃ lo hi, ((lo = r1 ∧ hi = r2) ∨ (lo = r2 ∧ hi = r1)) ∧
      val data lo = min (val data r1) (val data r2) ∧
      val data hi = max (val data r1) (val data r2) ∧
      (watershedStep data ("lower") s idx).pairs =
        s.pairs ++ [(some hi, ((val data idx - val data hi : ℤ) : WithTop ℤ)),
                    (some idx, ((val data idx - val data hi : ℤ) : WithTop ℤ))] ∧
      (watershedStep data ("lower") s idx).uf =
        UnionFind1D.union (UnionFind1D.extend_set_by_id s.uf lo idx) hi lo) ∧
    (∃ sur mer, ((sur = r1 ∧ mer = r2) ∨ (sur = r2 ∧ mer = r1)) ∧
      val data sur = max (val data r1) (val data r2) ∧
      val data mer = min (val data r1) (val data r2) ∧
      (watershedStep data ("upper") s idx).pairs =
        s.pairs ++ [(some idx, ((val data mer - val data idx : ℤ) : WithTop ℤ)),
                    (some mer, ((val data mer - val data idx : ℤ) : WithTop ℤ))] ∧
      (watershedStep data ("upper") s idx).uf =
        UnionFind1D.union (UnionFind1D.extend_set_by_id s.uf sur idx) mer sur) := by
  constructor
  · by_cases hv : val data r1 ≤ val data r2
    · refine ⟨r1, r2, Or.inl ⟨rfl, rfl⟩, (min_eq_left hv).symm, (max_eq_right hv).symm, ?_, ?_⟩
      · rw [watershedStep_merge_lower_le h hv]
      · rw [watershedStep_merge_lower_le h hv]
    · have hv2 : val data r2 ≤ val data r1 := le_of_lt (lt_of_not_le hv)
      refine ⟨r2, r1, Or.inr ⟨rfl, rfl⟩, (min_eq_right hv2).symm, (max_eq_left hv2).symm, ?_, ?_⟩
      · rw [watershedStep_merge_lower_gt h hv]
      · rw [watershedStep_merge_lower_gt h hv]
  · by_cases hv : val data r2 ≤ val data r1
    · refine ⟨r1, r2, Or.inl ⟨rfl, rfl⟩, (max_eq_left hv).symm, (min_eq_right hv).symm, ?_, ?_⟩
      · rw [watershedStep_merge_upper_ge h hv]
      · rw [watershedStep_merge_upper_ge h hv]
    · have hv2 : val data r1 ≤ val data r2 := le_of_lt (lt_of_not_le hv)
      refine ⟨r2, r1, Or.inr ⟨rfl, rfl⟩, (max_eq_right hv2).symm, (min_eq_left hv2).symm, ?_, ?_⟩
      · rw [watershedStep_merge_upper_lt h hv]
      · rw [watershedStep_merge_upper_lt h hv]

/-- A concrete pre-merge state used to exercise `C2_merge_event`:
indices 0 and 2 of the signal `[1, 5, 2]` are two singleton
components, and index 1 is about to be processed. -/
def mergeExampleState : WatershedState :=
  ⟨fun j => if j = 0 then some 0 else if j = 2 then some 2 else none, []⟩

theorem C2_witness :
    ∃ lo hi, ((lo = 0 ∧ hi = 2) ∨ (lo = 2 ∧ hi = 0)) ∧
      val ([1, 5, 2] : List ℤ) lo =
        min (val ([1, 5, 2] : List ℤ) 0) (val ([1, 5, 2] : List ℤ) 2) ∧
      val ([1, 5, 2] : List ℤ) hi =
        max (val ([1, 5, 2] : List ℤ) 0) (val ([1, 5, 2] : List ℤ) 2) ∧
      (watershedStep [1, 5, 2] ("lower") mergeExampleState 1).pairs =
        mergeExampleState.pairs ++
          [(some hi, ((val ([1, 5, 2] : List ℤ) 1 - val ([1, 5, 2] : List ℤ) hi : ℤ) : WithTop ℤ)),
           (some 1, ((val ([1, 5, 2] : List ℤ) 1 - val ([1, 5, 2] : List ℤ) hi : ℤ) : WithTop ℤ))] ∧
      (watershedStep [1, 5, 2] ("lower") mergeExampleState 1).uf =
        UnionFind1D.union (UnionFind1D.extend_set_by_id mergeExampleState.uf lo 1) hi lo :=
  (C2_merge_event [1, 5, 2] mergeExampleState 1 0 2 (by decide) (by decide)).1

/-- C8: the claim requires the CLI to reject a non-positive
`--max-width` before any pipeline computation, but the option is
declared with the bare `type=int` converter, which accepts `-5` (and
`0`) and lets the pipeline run with it; only the probability-typed
threshold options (and the `_positive_int`-typed options of other
subcommands) actually fail fast.  The spec (§6, §7) and the presence
of the unused-for-max-width `_positive_int` validator mark the code as
the slip. -/
theorem C8_max_width_accepted :
    max_width_arg (-5) = Except.ok (-5) ∧
    max_width_arg 0 = Except.ok 0 ∧
    probability_arg (-(1 / 2 : ℚ)) = Except.error ("Not a valid probability") ∧
    positive_int_arg (-5) = Except.error ("Not a positive int") := by
  refine ⟨rfl, rfl, ?_, ?_⟩
  · unfold probability_arg
    rw [if_neg (by norm_num)]
  · unfold positive_int_arg
    rw [if_neg (by norm_num)]

/-- C5, counterexample: on the signal `[0, 0]` (which equals its own
negation) the lower sweep ends with root 0 while the upper sweep —
whose reversed stable argsort breaks the tie the other way — ends with
root 1, so the extremum indices at position 0 differ. -/
theorem C5_counterexample :
    (run_persistence ([0, 0] : List ℤ) ("lower")).map Prod.fst = [some 0] ∧
    (run_persistence (List.map (fun v => -v) ([0, 0] : List ℤ)) ("upper")).map Prod.fst
      = [some 1] ∧
    ¬ ((run_persistence (List.map (fun v => -v) ([0, 0] : List ℤ)) ("upper")).map Prod.fst =
        (run_persistence ([0, 0] : List ℤ) ("lower")).map Prod.fst) := by
  decide

theorem argsort_neg (data : List ℤ) (hd : data.Nodup) :
    argsort (data.map (fun v => -v)) = (argsort data).reverse := by
  have hlen : (data.map (fun v => -v)).length = data.length := List.length_map _ _
  apply List.eq_of_perm_of_sorted (r := argOrder (data.map (fun v => -v)))
  · have p1 : (argsort (data.map (fun v => -v))).Perm (List.range data.length) := by
      have hp := argsort_perm (data.map (fun v => -v))
      rwa [hlen] at hp
    have p2 : ((argsort data).reverse).Perm (List.range data.length) :=
      ((argsort data).reverse_perm).trans (argsort_perm data)
    exact p1.trans p2.symm
  · exact argsort_sorted _
  · apply List.pairwise_reverse.mpr
    have hval_ne : ∀ a ∈ argsort data, ∀ b ∈ argsort data, a ≠ b →
        val data a ≠ val data b := by
      intro a ha b hb hab hv
      apply hab
      have haN := (argsort_mem data a).mp ha
      have hbN := (argsort_mem data b).mp hb
      unfold val at hv
      rw [List.getD_eq_getElem data 0 haN, List.getD_eq_getElem data 0 hbN] at hv
      exact (hd.getElem_inj_iff).mp hv
    have hpw : List.Pairwise (fun a b => argOrder data a b ∧ a ≠ b) (argsort data) :=
      (argsort_sorted data).and (argsort_nodup data)
    apply List.Pairwise.imp_of_mem _ hpw
    intro a b ha hb hab
    have hvne := hval_ne a ha b hb hab.2
    have hlt : val data a < val data b := by
      rcases hab.1 with h | ⟨h, _⟩
      · exact h
      · exact absurd h hvne
    left
    rw [val_neg_map, val_neg_map]
    omega

theorem c5_step (data : List ℤ) (idx : Nat) (sL sU : WatershedState)
    (huf : sU.uf = sL.uf)
    (hpairs : sU.pairs = swapPairs sL.pairs)
    (heven : Even sL.pairs.length)
    (hsnd : sU.pairs.map Prod.snd = sL.pairs.map Prod.snd) :
    (watershedStep (data.map (fun v => -v)) ("upper") sU idx).uf =
      (watershedStep data ("lower") sL idx).uf ∧
    (watershedStep (data.map (fun v => -v)) ("upper") sU idx).pairs =
      swapPairs (watershedStep data ("lower") sL idx).pairs ∧
    Even (watershedStep data ("lower") sL idx).pairs.length ∧
    (watershedStep (data.map (fun v => -v)) ("upper") sU idx).pairs.map Prod.snd =
      (watershedStep data ("lower") sL idx).pairs.map Prod.snd := by
  have hlen : (data.map (fun v => -v)).length = data.length := List.length_map _ _
  rcases hnc : neighborComponents data.length sL.uf idx with _ | ⟨r1, _ | ⟨r2, rest⟩⟩
  · have hncU : neighborComponents (data.map (fun v => -v)).length sU.uf idx = [] := by
      rw [hlen, huf]
      exact hnc
    rw [watershedStep_empty hncU, watershedStep_empty hnc]
    exact ⟨by rw [huf], hpairs, heven, hsnd⟩
  · have hncU : neighborComponents (data.map (fun v => -v)).length sU.uf idx = [r1] := by
      rw [hlen, huf]
      exact hnc
    rw [watershedStep_one hncU, watershedStep_one hnc]
    exact ⟨by rw [huf], hpairs, heven, hsnd⟩
  · have hrest : rest = [] := by
      have hle : (neighborComponents data.length sL.uf idx).length ≤ 2 := by
        unfold neighborComponents
        rw [List.filterMap_cons, List.filterMap_cons, List.filterMap_nil]
        rcases sL.uf (max (idx - 1) 0) <;> rcases sL.uf (min (idx + 1) (data.length - 1)) <;>
          simp
      rw [hnc] at hle
      simp at hle
      exact List.eq_nil_of_length_eq_zero (by simpa using hle)
    subst hrest
    have hncU : neighborComponents (data.map (fun v => -v)).length sU.uf idx = [r1, r2] := by
      rw [hlen, huf]
      exact hnc
    by_cases hv : val data r1 ≤ val data r2
    · have hvU : val (data.map (fun v => -v)) r2 ≤ val (data.map (fun v => -v)) r1 := by
        rw [val_neg_map, val_neg_map]
        omega
      rw [watershedStep_merge_upper_ge hncU hvU, watershedStep_merge_lower_le hnc hv]
      have hz : (val (data.map (fun v => -v)) r2 - val (data.map (fun v => -v)) idx : ℤ) =
          (val data idx - val data r2 : ℤ) := by
        rw [val_neg_map, val_neg_map]
        ring
      have hp : ((val (data.map (fun v => -v)) r2 - val (data.map (fun v => -v)) idx : ℤ) :
          WithTop ℤ) = ((val data idx - val data r2 : ℤ) : WithTop ℤ) := by
        rw [hz]
      refine ⟨by rw [huf], ?_, ?_, ?_⟩
      · rw [hp, hpairs, swapPairs_append_two heven]
      · rw [List.length_append]
        rcases heven with ⟨m, hm⟩
        exact ⟨m + 1, by rw [hm]; simp; omega⟩
      · rw [hp, List.map_append, List.map_append, hsnd]
        simp
    · have hvU : ¬ val (data.map (fun v => -v)) r2 ≤ val (data.map (fun v => -v)) r1 := by
        rw [val_neg_map, val_neg_map]
        omega
      rw [watershedStep_merge_upper_lt hncU hvU, watershedStep_merge_lower_gt hnc hv]
      have hz : (val (data.map (fun v => -v)) r1 - val (data.map (fun v => -v)) idx : ℤ) =
          (val data idx - val data r1 : ℤ) := by
        rw [val_neg_map, val_neg_map]
        ring
      have hp : ((val (data.map (fun v => -v)) r1 - val (data.map (fun v => -v)) idx : ℤ) :
          WithTop ℤ) = ((val data idx - val data r1 : ℤ) : WithTop ℤ) := by
        rw [hz]
      refine ⟨by rw [huf], ?_, ?_, ?_⟩
      · rw [hp, hpairs, swapPairs_append_two heven]
      · rw [List.length_append]
        rcases heven with ⟨m, hm⟩
        exact ⟨m + 1, by rw [hm]; simp; omega⟩
      · rw [hp, List.map_append, List.map_append, hsnd]
        simp

theorem c5_fold (data : List ℤ) :
    ∀ (l : List Nat) (sL sU : WatershedState),
      sU.uf = sL.uf → sU.pairs = swapPairs sL.pairs → Even sL.pairs.length →
      sU.pairs.map Prod.snd = sL.pairs.map Prod.snd →
      (l.foldl (watershedStep (data.map (fun v => -v)) ("upper")) sU).uf =
        (l.foldl (watershedStep data ("lower")) sL).uf ∧
      (l.foldl (watershedStep (data.map (fun v => -v)) ("upper")) sU).pairs =
        swapPairs (l.foldl (watershedStep data ("lower")) sL).pairs ∧
      Even (l.foldl (watershedStep data ("lower")) sL).pairs.length ∧
      (l.foldl (watershedStep (data.map (fun v => -v)) ("upper")) sU).pairs.map Prod.snd =
        (l.foldl (watershedStep data ("lower")) sL).pairs.map Prod.snd
  | [], sL, sU, huf, hpairs, heven, hsnd => ⟨huf, hpairs, heven, hsnd⟩
  | idx :: t, sL, sU, huf, hpairs, heven, hsnd => by
    obtain ⟨huf2, hpairs2, heven2, hsnd2⟩ := c5_step data idx sL sU huf hpairs heven hsnd
    exact c5_fold data t (watershedStep data ("lower") sL idx)
      (watershedStep (data.map (fun v => -v)) ("upper") sU idx) huf2 hpairs2 heven2 hsnd2

/-- C5, amended: for signals with pairwise-distinct values, negating
every value and swapping `lower` with `upper` yields the same list of
persistence pairs up to swapping the two entries inside each merge
pair (the trailing global entry stays in place); in particular the
persistence values at identical positions are identical. -/
theorem C5_amended (data : List ℤ) (hd : data.Nodup) :
    run_persistence (data.map (fun v => -v)) ("upper") =
      swapPairs (run_persistence data ("lower")) ∧
    (run_persistence (data.map (fun v => -v)) ("upper")).map Prod.snd =
      (run_persistence data ("lower")).map Prod.snd := by
  have hrev : (argsort (data.map (fun v => -v))).reverse = argsort data := by
    rw [argsort_neg data hd, List.reverse_reverse]
  have hupper : upperState (data.map (fun v => -v)) =
      (argsort data).foldl (watershedStep (data.map (fun v => -v)) ("upper"))
        ⟨fun _ => none, []⟩ := by
    unfold upperState
    rw [hrev]
  obtain ⟨huf, hpairs, heven, hsnd⟩ := c5_fold data (argsort data)
    ⟨fun _ => none, []⟩ ⟨fun _ => none, []⟩ rfl rfl (by simp) rfl
  have hls : List.foldl (watershedStep data ("lower")) ⟨fun _ => none, []⟩ (argsort data) =
      lowerState data := rfl
  rw [hls] at huf hpairs heven hsnd
  rw [run_persistence_upper_eq, run_persistence_lower_eq, hupper]
  have hfind : UnionFind1D.find
      (List.foldl (watershedStep (data.map (fun v => -v)) ("upper"))
        ⟨fun _ => none, []⟩ (argsort data)).uf 0 =
      UnionFind1D.find (lowerState data).uf 0 := by
    unfold UnionFind1D.find
    rw [huf]
  constructor
  · rw [swapPairs_concat heven, hpairs, hfind]
  · rw [List.map_append, List.map_append, hsnd]
    rfl

theorem C5_witness :
    run_persistence (List.map (fun v => -v) ([1, 5, 2] : List ℤ)) ("upper") =
      swapPairs (run_persistence ([1, 5, 2] : List ℤ) ("lower")) ∧
    (run_persistence (List.map (fun v => -v) ([1, 5, 2] : List ℤ)) ("upper")).map Prod.snd =
      (run_persistence ([1, 5, 2] : List ℤ) ("lower")).map Prod.snd :=
  C5_amended [1, 5, 2] (by decide)

theorem C9_witness :
    run_persistence [(7 : ℤ)] ("lower") = [(some 0, ⊤)] ∧
      run_persistence [(7 : ℤ)] ("upper") = [(some 0, ⊤)] :=
  C9_singleton_signal 7

theorem C7_witness :
    FilterExtremumPointsByPersistence
        (FilterExtremumPointsByPersistence
          [(some 2, (((3 : ℤ)) : WithTop ℤ)), (some 0, ⊤)] (((4 : ℤ)) : WithTop ℤ))
        (((4 : ℤ)) : WithTop ℤ) =
      FilterExtremumPointsByPersistence
        [(some 2, (((3 : ℤ)) : WithTop ℤ)), (some 0, ⊤)] (((4 : ℤ)) : WithTop ℤ) :=
  C7_filter_idempotent [(some 2, (((3 : ℤ)) : WithTop ℤ)), (some 0, ⊤)] (((4 : ℤ)) : WithTop ℤ)
